import Mathlib

/-!
Shallow embedding of the snowball scraper `youtube_snowball.py` and proofs
about the behaviours its specification describes.  Python dictionaries are
modelled as association lists keyed by strings (first occurrence wins, new
keys are appended at the end, matching insertion order), Python integers as
`Int` or `Nat`, and Python string comparison as code-point lexicographic
comparison on the character list.
-/

/-! ### Basic dictionary / string helpers -/

/-- Lookup in an association list: the value of the first matching key
(Python `dict[key]` / `dict.get(key)`). -/
def lookupV {β : Type} : List (String × β) → String → Option β
  | [], _ => none
  | (k, b) :: rest, v => if k = v then some b else lookupV rest v

/-- Python string `<`: lexicographic comparison by code point. -/
def strLtB : List Char → List Char → Bool
  | [], [] => false
  | [], _ :: _ => true
  | _ :: _, [] => false
  | a :: as, b :: bs => if a < b then true else if b < a then false else strLtB as bs

/-- Python `a < b` on strings. -/
def pyLt (a b : String) : Bool := strLtB a.data b.data

/-! ### The scraped-video store and the page model -/

/-- The parsed `ytInitialData` of a watch page: the optional autoplay slot
(`results[0]...compactAutoplayRenderer...videoId`) and the sidebar slots
`results[i]['compactVideoRenderer']['videoId']` for `i ≥ 1`; a slot that
fails to parse (the `except` branches) is `none`. -/
structure YtData where
  autoplay : Option String
  sideSlots : List (Option String)
  deriving DecidableEq

/-- A fetched watch page as seen by the scraping block of
`get_recommendations`.  `uploadDates` are the contents of the
`meta itemprop=uploadDate` elements; `ytData = none` models the case where
both `json.loads` attempts on the `ytInitialData` pattern fail. -/
structure Page where
  title : String
  description : String
  uploadDates : List String
  ytData : Option YtData
  views : Int
  channel : String
  channel_id : String
  deriving DecidableEq

/-- One entry of `self._scrapped_videos` (the fields the claims depend on). -/
structure VideoRecord where
  views : Int
  recommendations : List String
  title : String
  channel : String
  pubdate : String
  deriving DecidableEq

/-- The outcome of one `get_recommendations` call: the returned list, the
updated `_scrapped_videos` store, and whether the video page was fetched. -/
structure ScrapeResult where
  recos : List String
  store : List (String × VideoRecord)
  fetched : Bool
  deriving DecidableEq

/-! ### VideoExpander: `get_recommendations` -/

/-- The `for upload_elem in soup.findAll('meta', {'itemprop': 'uploadDate'})`
loop of `get_recommendations`: each element overwrites `pubdate` and, when
`pubdate < month_ago_string` with the skip flag set, the function returns
`[]` early (modelled by `none`); otherwise the final `pubdate` value is kept
(`some`). -/
def checkUploadDates (elems : List String) (month_ago_string : String)
    (skip_older_videos : Bool) (pubdate : String) : Option String :=
  match elems with
  | [] => some pubdate
  | e :: rest =>
    if pyLt e month_ago_string && skip_older_videos then none
    else checkUploadDates rest month_ago_string skip_older_videos e

/-- Recommendation extraction from parsed `ytInitialData`: the autoplay slot
if it parses, then the sidebar slots for indices `range(1, 20)` (nineteen
slots), keeping only those that parse. -/
def scrapeRecos (d : YtData) : List String :=
  (match d.autoplay with
   | some r => [r]
   | none => []) ++ (d.sideSlots.take 19).filterMap id

/-- `YoutubeChannelScrapper.get_recommendations`: when `video_id` is already
in `_scrapped_videos` its stored list is returned without fetching; otherwise
the page is fetched and either (a) a stale publish date with the skip flag,
or (b) unparseable `ytInitialData`, makes the call return `[]` WITHOUT
recording the video, or (c) the scrape completes, a record whose
`recommendations` field is the scraped list is appended to the store, and the
list is returned. -/
def get_recommendations (fetchPage : String → Page) (month_ago_string : String)
    (skip_older_videos : Bool) (store : List (String × VideoRecord))
    (video_id : String) : ScrapeResult :=
  match lookupV store video_id with
  | some r => ⟨r.recommendations, store, false⟩
  | none =>
    let page := fetchPage video_id
    match checkUploadDates page.uploadDates month_ago_string skip_older_videos "" with
    | none => ⟨[], store, true⟩
    | some pubdate =>
      match page.ytData with
      | none => ⟨[], store, true⟩
      | some d =>
        let recos := scrapeRecos d
        ⟨recos, store ++ [(video_id, ⟨page.views, recos, page.title, page.channel, pubdate⟩)], true⟩

/-- Length of the recommendation list held by an optional store entry. -/
def recLen : Option VideoRecord → Nat
  | none => 0
  | some r => r.recommendations.length

/-- A watch page whose `ytInitialData` JSON cannot be parsed. -/
def badPage : Page := ⟨"t", "d", [], none, -1, "", ""⟩

/-- A watch page that scrapes successfully: fresh upload date, an autoplay
recommendation and two parseable sidebar slots. -/
def goodPage : Page :=
  ⟨"t", "d", ["2021-01-01"], some ⟨some "a", [some "b", none, some "c"]⟩, 7, "ch", "chid"⟩

/-! ### Lemmas about the store -/

lemma lookupV_append_self {β : Type} (l : List (String × β)) (v : String) (b : β)
    (h : lookupV l v = none) : lookupV (l ++ [(v, b)]) v = some b := by
  induction l with
  | nil => simp [lookupV]
  | cons p rest ih =>
    obtain ⟨k, c⟩ := p
    by_cases hk : k = v
    · simp [lookupV, hk] at h
    · simp only [lookupV, hk, if_false] at h
      simpa [lookupV, hk] using ih h

lemma lookupV_mem {β : Type} (l : List (String × β)) (v : String) (b : β)
    (h : lookupV l v = some b) : (v, b) ∈ l := by
  induction l with
  | nil => simp [lookupV] at h
  | cons p rest ih =>
    obtain ⟨k, c⟩ := p
    by_cases hk : k = v
    · subst hk
      simp [lookupV] at h
      subst h
      exact List.mem_cons_self _ _
    · simp only [lookupV, hk, if_false] at h
      exact List.mem_cons_of_mem _ (ih h)

/-! ### Claim C1 -/

/-- Claim C1 counterexample: for a video whose `ytInitialData` cannot be
parsed, the first call returns without recording the video, so the second
call fetches the video page again — the claim asserts the second call is
answered from the scraped-video cache without fetching. -/
theorem c1_counterexample :
    (get_recommendations (fun _ => badPage) "2020-01-01" true
      (get_recommendations (fun _ => badPage) "2020-01-01" true [] "v").store "v").fetched
      = true := by
  decide

/-- Claim C1 (amended): calling `get_recommendations` twice on the same video
id within a run returns an identical recommendation list on both calls, and
the second call skips the page fetch exactly when the first call left the
video recorded in `_scrapped_videos` (it was already cached, or its first
scrape completed); a first call that short-circuits on a stale publish date
or malformed `ytInitialData` records nothing and the page is fetched again. -/
theorem c1_idempotent_expansion (fetchPage : String → Page) (ma : String) (sk : Bool)
    (store : List (String × VideoRecord)) (v : String) :
    (get_recommendations fetchPage ma sk
        (get_recommendations fetchPage ma sk store v).store v).recos
      = (get_recommendations fetchPage ma sk store v).recos
    ∧ (get_recommendations fetchPage ma sk
        (get_recommendations fetchPage ma sk store v).store v).fetched
      = (lookupV (get_recommendations fetchPage ma sk store v).store v).isNone := by
  cases hv : lookupV store v with
  | some r =>
    simp [get_recommendations, hv]
  | none =>
    cases hc : checkUploadDates (fetchPage v).uploadDates ma sk "" with
    | none =>
      simp [get_recommendations, hv, hc]
    | some pubdate =>
      cases hd : (fetchPage v).ytData with
      | none =>
        simp [get_recommendations, hv, hc, hd]
      | some d =>
        have hlook := lookupV_append_self store v
          (⟨(fetchPage v).views, scrapeRecos d, (fetchPage v).title, (fetchPage v).channel,
            pubdate⟩ : VideoRecord) hv
        simp [get_recommendations, hv, hc, hd, hlook]

/-! ### Claim C2 -/

/-- Claim C2 counterexample: after fetching a page whose embedded JSON cannot
be parsed, the video is NOT recorded in the scraped-video store (the claim
asserts it is recorded with an empty recommendation list). -/
theorem c2_counterexample :
    lookupV (get_recommendations (fun _ => badPage) "2020-01-01" true [] "v").store "v"
      = none := by
  decide

/-- Claim C2 (amended): a video whose page is fetched but whose
recommendations are not scraped — stale publish date under the skip flag, or
unparseable `ytInitialData` — is NOT recorded in the scraped-video store: the
call returns an empty recommendation list, leaves the store unchanged, and
the run continues. -/
theorem c2_short_circuit_unrecorded (fetchPage : String → Page) (ma : String) (sk : Bool)
    (store : List (String × VideoRecord)) (v : String)
    (h1 : lookupV store v = none)
    (h2 : checkUploadDates (fetchPage v).uploadDates ma sk "" = none
          ∨ (fetchPage v).ytData = none) :
    get_recommendations fetchPage ma sk store v = ⟨[], store, true⟩ := by
  rcases h2 with h2 | h2
  · simp [get_recommendations, h1, h2]
  · cases hc : checkUploadDates (fetchPage v).uploadDates ma sk "" with
    | none => simp [get_recommendations, h1, hc]
    | some pubdate => simp [get_recommendations, h1, hc, h2]

theorem c2_short_circuit_unrecorded_witness :
    get_recommendations (fun _ => badPage) "2020-01-01" true [] "v" = ⟨[], [], true⟩ :=
  c2_short_circuit_unrecorded (fun _ => badPage) "2020-01-01" true [] "v" rfl (Or.inr rfl)

/-! ### Claim C10 -/

lemma scrapeRecos_length_le (d : YtData) : (scrapeRecos d).length ≤ 20 := by
  have h1 : ((d.sideSlots.take 19).filterMap id).length ≤ 19 :=
    le_trans (List.length_filterMap_le _ _) (by simp [List.length_take])
  cases ha : d.autoplay <;> simp [scrapeRecos, ha] <;> omega

/-- Claim C10: a fresh page scrape stores, and returns, a recommendation list
of length at most 20 (the autoplay slot plus at most 19 sidebar slots). -/
theorem c10_reco_list_bounded (fetchPage : String → Page) (ma : String) (sk : Bool)
    (store : List (String × VideoRecord)) (v : String)
    (h : lookupV store v = none) :
    (get_recommendations fetchPage ma sk store v).recos.length ≤ 20
    ∧ recLen (lookupV (get_recommendations fetchPage ma sk store v).store v) ≤ 20 := by
  cases hc : checkUploadDates (fetchPage v).uploadDates ma sk "" with
  | none => simp [get_recommendations, h, hc, recLen]
  | some pubdate =>
    cases hd : (fetchPage v).ytData with
    | none => simp [get_recommendations, h, hc, hd, recLen]
    | some d =>
      have hlook := lookupV_append_self store v
        (⟨(fetchPage v).views, scrapeRecos d, (fetchPage v).title, (fetchPage v).channel,
          pubdate⟩ : VideoRecord) h
      simp only [get_recommendations, h, hc, hd, hlook, recLen]
      exact ⟨scrapeRecos_length_le d, scrapeRecos_length_le d⟩

theorem c10_reco_list_bounded_witness :
    (get_recommendations (fun _ => goodPage) "2020-01-01" true [] "v").recos.length ≤ 20
    ∧ recLen (lookupV
        (get_recommendations (fun _ => goodPage) "2020-01-01" true [] "v").store "v") ≤ 20 :=
  c10_reco_list_bounded (fun _ => goodPage) "2020-01-01" true [] "v" rfl

/-! ### Int-valued dictionaries (tallies) -/

/-- `dict.get(k, 0)` on an integer-valued dictionary (also `defaultdict(int)`
reads). -/
def getI (l : List (String × Int)) (k : String) : Int := (lookupV l k).getD 0

/-- `dict[k] = v`: replace the first binding of `k`, or append a new one. -/
def setI : List (String × Int) → String → Int → List (String × Int)
  | [], k, v => [(k, v)]
  | (k', v') :: rest, k, v =>
    if k' = k then (k, v) :: rest else (k', v') :: setI rest k v

lemma getI_setI (l : List (String × Int)) (k c : String) (v : Int) :
    getI (setI l k v) c = if k = c then v else getI l c := by
  induction l with
  | nil => by_cases h : k = c <;> simp [setI, getI, lookupV, h]
  | cons p rest ih =>
    obtain ⟨k', v'⟩ := p
    by_cases h1 : k' = k
    · subst h1
      by_cases h2 : k' = c <;> simp [setI, getI, lookupV, h2]
    · by_cases h2 : k' = c
      · subst h2
        have hkc : ¬ k = k' := fun h => h1 h.symm
        simp [setI, getI, lookupV, h1, hkc]
      · simpa [setI, getI, lookupV, h1, h2] using ih

/-! ### Claim C3: the enough-recos filter of the snowball loop -/

/-- `getChannelsWithEnoughRecos`: tally `len(video['recommendations'])` per
`video['channel']` over all scraped videos, and return the tally together
with the channels whose tally exceeds 50. -/
def getChannelsWithEnoughRecos (scrapped : List (String × VideoRecord)) :
    List (String × Int) × List String :=
  let channels_to_recos := scrapped.foldl
    (fun acc p =>
      setI acc p.2.channel (getI acc p.2.channel + (p.2.recommendations.length : Int))) []
  (channels_to_recos,
   (channels_to_recos.map Prod.fst).filter
     (fun c => decide (50 < getI channels_to_recos c)))

/-- Insertion step for `sorted(..., reverse=True)` by a key function. -/
def insertByDesc (key : String → Int) (c : String) : List String → List String
  | [] => [c]
  | x :: xs => if key x < key c then c :: x :: xs else x :: insertByDesc key c xs

/-- `sorted(self._total_channel_stats, key=..., reverse=True)`: the keys of
the run tally in non-increasing tally order. -/
def sortedTopChannels (total : List (String × Int)) : List String :=
  (total.map Prod.fst).foldr (insertByDesc (getI total)) []

/-- The body of one iteration of the snowball `while` loop (lines
1042–1048): the slice `sorted_top_channels[0:nb_extra_channels]` filtered by
the enough-recos list and the do-not-expand set.  These are exactly the
channels passed to `scrap_the_channel` in that iteration. -/
def snowballIterationTargets (total : List (String × Int))
    (scrapped : List (String × VideoRecord)) (nb_extra_channels : Nat)
    (do_not_expand : List String) : List String :=
  ((sortedTopChannels total).take nb_extra_channels).filter
    (fun c => !(decide (c ∈ (getChannelsWithEnoughRecos scrapped).2))
              && !(decide (c ∈ do_not_expand)))

/-- Claim C3: a channel computed by `getChannelsWithEnoughRecos` as already
holding more than 50 observed recommendations is never among the channels
passed to `scrap_the_channel` in a snowball-loop iteration. -/
theorem c3_enough_recos_not_expanded (total : List (String × Int))
    (scrapped : List (String × VideoRecord)) (n : Nat) (dne : List String)
    (c : String) (h : c ∈ (getChannelsWithEnoughRecos scrapped).2) :
    c ∉ snowballIterationTargets total scrapped n dne := by
  intro hc
  have hpred := (List.mem_filter.mp hc).2
  simp only [Bool.and_eq_true, Bool.not_eq_true', decide_eq_false_iff_not] at hpred
  exact hpred.1 h

/-- A store holding one video of channel `chA` with 51 recommendations, so
`chA` is reported by `getChannelsWithEnoughRecos`. -/
def enoughStore : List (String × VideoRecord) :=
  [("v1", ⟨0, List.replicate 51 "r", "t", "chA", "2020-01-01"⟩)]

theorem c3_enough_recos_not_expanded_witness :
    "chA" ∉ snowballIterationTargets [("chA", 99)] enoughStore 5 [] :=
  c3_enough_recos_not_expanded [("chA", 99)] enoughStore 5 [] "chA" (by decide)

/-! ### Claim C4: the estimator's persistence filter -/

/-- Consecutive pairs of a list. -/
def consecPairs {α : Type} : List α → List (α × α)
  | a :: b :: rest => (a, b) :: consecPairs (b :: rest)
  | _ => []

/-- The per-video estimator loop of `compute_recent_files` (lines
1201–1241).  `obs` is the video's per-date record, oldest date first (`none`
when the video is absent from that date's store); `first_index` always
advances to the next observed date, so the loop walks consecutive observation
pairs.  For each pair with a positive view increase, every occurrence of a
recommendation in the first snapshot's list that also appears in the second
snapshot's list receives the whole increase; `target`'s total tally is
returned. -/
def estimatedRecos (obs : List (Option VideoRecord)) (target : String) : Int :=
  ((consecPairs (obs.filterMap id)).map (fun p =>
    let view_inc := p.2.views - p.1.views
    if 0 < view_inc ∧ target ∈ p.2.recommendations
    then (p.1.recommendations.count target : Int) * view_inc
    else 0)).sum

/-- Video A: observed at date 1 (views 100, recommending B and C), absent at
date 2, observed at date 3 (views 150, recommending B and D). -/
def c4_obs : List (Option VideoRecord) :=
  [some ⟨100, ["B", "C"], "tA", "chA", "2020-01-01"⟩,
   none,
   some ⟨150, ["B", "D"], "tA", "chA", "2020-01-01"⟩]

/-- Claim C4: with video A observed at dates 1 and 3 (views 100 → 150) and
the estimator pairing those observations, recommendation B — present in both
lists — gains the entire 50-view increase, and recommendation C — present
only at date 1 — gains nothing from the interval. -/
theorem c4_persistence_filter :
    estimatedRecos c4_obs "B" = 50 ∧ estimatedRecos c4_obs "C" = 0 := by
  decide

/-! ### Claim C6: termination of the snowball loop -/

/-- The `while nb_extra_channels + len(base_channels) < max_channels` loop of
`scrap_from_base`: `nb_extra_channels` is incremented once per iteration and
nothing else in the body changes the loop condition.  The value computed is
the number of iterations the loop executes. -/
def snowballIterations (nb_extra_channels base_count max_channels : Nat) : Nat :=
  if h : nb_extra_channels + base_count < max_channels then
    1 + snowballIterations (nb_extra_channels + 1) base_count max_channels
  else 0
termination_by max_channels - nb_extra_channels
decreasing_by omega

lemma snowballIterations_eq (d : Nat) :
    ∀ n b m : Nat, m - n ≤ d → snowballIterations n b m = m - (n + b) := by
  induction d with
  | zero =>
    intro n b m hd
    rw [snowballIterations]
    have hns : ¬ (n + b < m) := by omega
    simp only [hns, dif_neg, not_false_iff]
    omega
  | succ d ih =>
    intro n b m hd
    rw [snowballIterations]
    by_cases hns : n + b < m
    · simp only [hns, dif_pos]
      rw [ih (n + 1) b m (by omega)]
      omega
    · simp only [hns, dif_neg, not_false_iff]
      omega

/-- Claim C6: whenever `max_channels ≥ len(base_channels)`, the snowball
while-loop terminates after at most `max_channels - len(base_channels)`
iterations. -/
theorem c6_snowball_terminates (b m : Nat) (h : b ≤ m) :
    snowballIterations 0 b m ≤ m - b := by
  rw [snowballIterations_eq m 0 b m (by omega)]
  omega

theorem c6_snowball_terminates_witness : snowballIterations 0 2 5 ≤ 5 - 2 :=
  c6_snowball_terminates 2 5 (by decide)

/-! ### Claim C7: monotonicity of the run tally -/

/-- The tally loop of `scrap_the_video` (lines 675–681): for each
recommendation, resolve its channel with `getChannelForVideo` (a `KeyError`
— unresolvable id — skips the recommendation) and add one to
`channel_to_counts`. -/
def scrapVideoCounts (resolve : String → Option String) (recos : List String)
    (counts : List (String × Int)) : List (String × Int) :=
  recos.foldl (fun acc r =>
    match resolve r with
    | none => acc
    | some ch => setI acc ch (getI acc ch + 1)) counts

/-- `getChannelToCountFromUploads`' accumulation of `channel_to_counts`
across the selected videos, starting from the empty dictionary. -/
def getChannelToCounts (resolve : String → Option String)
    (videosRecos : List (List String)) : List (String × Int) :=
  videosRecos.foldl (fun acc rs => scrapVideoCounts resolve rs acc) []

/-- The final loop of `scrap_the_channel` (lines 744–745):
`self._total_channel_stats[ch] += channel_to_counts[ch]` over the keys of
`channel_to_counts`. -/
def applyChannelCounts (total counts : List (String × Int)) : List (String × Int) :=
  (counts.map Prod.fst).foldl
    (fun tot ch => setI tot ch (getI tot ch + getI counts ch)) total

lemma scrapVideoCounts_nonneg (resolve : String → Option String) :
    ∀ (recos : List String) (counts : List (String × Int)),
      (∀ c, 0 ≤ getI counts c) →
      ∀ c, 0 ≤ getI (scrapVideoCounts resolve recos counts) c := by
  intro recos
  induction recos with
  | nil => intro counts h c; simpa [scrapVideoCounts] using h c
  | cons r rest ih =>
    intro counts h c
    have hstep : ∀ c2, 0 ≤ getI
        (match resolve r with
         | none => counts
         | some ch => setI counts ch (getI counts ch + 1)) c2 := by
      intro c2
      cases hr : resolve r with
      | none => exact h c2
      | some ch =>
        rw [getI_setI]
        by_cases hc2 : ch = c2
        · have := h ch
          simp only [hc2, if_pos]
          subst hc2
          omega
        · simpa [hc2] using h c2
    have hunfold : scrapVideoCounts resolve (r :: rest) counts
        = scrapVideoCounts resolve rest
            (match resolve r with
             | none => counts
             | some ch => setI counts ch (getI counts ch + 1)) := by
      cases hr : resolve r <;> simp [scrapVideoCounts, hr]
    rw [hunfold]
    exact ih _ hstep c

lemma getChannelToCounts_nonneg (resolve : String → Option String)
    (videosRecos : List (List String)) :
    ∀ c, 0 ≤ getI (getChannelToCounts resolve videosRecos) c := by
  have haux : ∀ (vrs : List (List String)) (counts : List (String × Int)),
      (∀ c, 0 ≤ getI counts c) →
      ∀ c, 0 ≤ getI (vrs.foldl (fun acc rs => scrapVideoCounts resolve rs acc) counts) c := by
    intro vrs
    induction vrs with
    | nil => intro counts h c; simpa using h c
    | cons rs rest ih =>
      intro counts h c
      rw [List.foldl_cons]
      exact ih _ (scrapVideoCounts_nonneg resolve rs counts h) c
  exact haux videosRecos [] (fun c => by simp [getI, lookupV])

lemma applyChannelCounts_mono_aux (counts : List (String × Int))
    (hc : ∀ c, 0 ≤ getI counts c) :
    ∀ (keys : List String) (total : List (String × Int)) (c : String),
      getI total c
        ≤ getI (keys.foldl (fun tot ch => setI tot ch (getI tot ch + getI counts ch)) total) c := by
  intro keys
  induction keys with
  | nil => intro total c; simp
  | cons k rest ih =>
    intro total c
    rw [List.foldl_cons]
    refine le_trans ?_ (ih _ c)
    rw [getI_setI]
    by_cases hk : k = c
    · subst hk
      have := hc k
      simp only [if_pos rfl]
      omega
    · simp [hk]

/-- Claim C7: the run-scoped recommendation tally `_total_channel_stats` is
non-decreasing: the only operation that touches it adds, per channel, a count
built exclusively from unit increments in `scrap_the_video`, hence a
non-negative amount. -/
theorem c7_tally_monotone (resolve : String → Option String)
    (videosRecos : List (List String)) (total : List (String × Int)) (c : String) :
    getI total c
      ≤ getI (applyChannelCounts total (getChannelToCounts resolve videosRecos)) c := by
  unfold applyChannelCounts
  exact applyChannelCounts_mono_aux _ (getChannelToCounts_nonneg resolve videosRecos) _ total c

/-! ### Claim C8: video selection from a channel's uploads -/

/-- `ESTIMATED_RECOS_PER_VIDEO` (line 33). -/
def ESTIMATED_RECOS_PER_VIDEO : Nat := 15

/-- The second pass of `getChannelToCountFromUploads` (lines 640–645): walk
the upload items, append any video not yet selected, and stop once the
selection reaches `total_video_needed` — the length test runs only AFTER the
append. -/
def videosToGetSecondPass : List String → List String → Nat → List String
  | [], acc, _ => acc
  | v :: rest, acc, total_video_needed =>
    let acc2 := if v ∈ acc then acc else acc ++ [v]
    if total_video_needed ≤ acc2.length then acc2
    else videosToGetSecondPass rest acc2 total_video_needed

/-- The video-selection logic of `getChannelToCountFromUploads` (lines
621–645): all already-cached uploads first, then the demand estimate
`len(cached) + (required - nb_recos) / ESTIMATED_RECOS_PER_VIDEO` when the
cached recommendations fall short, then the second pass.  The returned list
is exactly the set of videos subsequently passed to `scrap_the_video`. -/
def videosToGet (store : List (String × VideoRecord)) (items : List String)
    (required_recos : Nat) : List String :=
  let videos_to_get := items.filter (fun v => (lookupV store v).isSome)
  let nb_recos := (videos_to_get.map (fun v => recLen (lookupV store v))).sum
  let total_video_needed :=
    if nb_recos < required_recos
    then videos_to_get.length + (required_recos - nb_recos) / ESTIMATED_RECOS_PER_VIDEO
    else videos_to_get.length
  videosToGetSecondPass items videos_to_get total_video_needed

/-- Five cached uploads holding 3+3+2+2+2 = 12 stored recommendations. -/
def c8_store : List (String × VideoRecord) :=
  [("c1", ⟨0, ["r1", "r2", "r3"], "t1", "ch", "d"⟩),
   ("c2", ⟨0, ["r4", "r5", "r6"], "t2", "ch", "d"⟩),
   ("c3", ⟨0, ["r7", "r8"], "t3", "ch", "d"⟩),
   ("c4", ⟨0, ["r9", "r10"], "t4", "ch", "d"⟩),
   ("c5", ⟨0, ["r11", "r12"], "t5", "ch", "d"⟩)]

/-- The channel's upload list: an uncached latest upload `u0` followed by the
five cached ones. -/
def c8_items : List String := ["u0", "c1", "c2", "c3", "c4", "c5"]

/-- Claim C8 (code behaviour at the claim's scenario): with
`required_recos = 10` and five cached uploads holding 12 stored
recommendations, the selection nevertheless appends the uncached head upload
`u0` — the target-size check runs only after the append — so `u0` IS freshly
scraped although the cached supply already meets the demand. -/
theorem c8_cached_supply_bug :
    videosToGet c8_store c8_items 10 = ["c1", "c2", "c3", "c4", "c5", "u0"]
    ∧ lookupV c8_store "u0" = none := by
  decide

/-! ### Claim C5: the 50-id batch ceiling -/

/-- One step of the comma-joined id accumulation used by
`make_video_to_chan_map` and `get_all_api_data`: when the pending batch has
reached 50 ids it is flushed to `getVideosFromYouTubeAPI` BEFORE the new id
is appended.  The state is (flushed batches, pending batch). -/
def addToBatch (st : List (List String) × List String) (id0 : String) :
    List (List String) × List String :=
  if st.2.length = 50 then (st.1 ++ [st.2], [id0]) else (st.1, st.2 ++ [id0])

/-- The batches handed to `getVideosFromYouTubeAPI` by the accumulation
loops, for an arbitrary stream of ids surviving the membership filters: the
flush-at-50 folds over the stream, plus the final non-empty flush. -/
def mkBatches (ids : List String) : List (List String) :=
  let st := ids.foldl addToBatch ([], [])
  if st.2.isEmpty then st.1 else st.1 ++ [st.2]

/-- The single API batch built by `scrap_the_video` (lines 664–673): the
recommendations not already known to `_api_videos` or `_video_to_chan_map`,
comma-joined into one call. -/
def scrapVideoApiBatch (recos api v2c : List String) : List String :=
  recos.filter (fun r => !(decide (r ∈ api)) && !(decide (r ∈ v2c)))

/-- All stored recommendation lists have at most 50 entries — the invariant
the scraper itself maintains, since every fresh record holds at most 20. -/
def storeRecosBounded (store : List (String × VideoRecord)) : Bool :=
  store.all (fun e => decide (e.2.recommendations.length ≤ 50))

lemma foldl_addToBatch_invariant (ids : List String) :
    ∀ st : List (List String) × List String,
      ((∀ b ∈ st.1, b.length ≤ 50) ∧ st.2.length ≤ 50) →
      (∀ b ∈ (ids.foldl addToBatch st).1, b.length ≤ 50)
      ∧ (ids.foldl addToBatch st).2.length ≤ 50 := by
  induction ids with
  | nil => intro st h; simpa using h
  | cons i rest ih =>
    intro st h
    rw [List.foldl_cons]
    apply ih
    unfold addToBatch
    by_cases hl : st.2.length = 50
    · simp only [hl, if_pos]
      constructor
      · intro b hb
        rcases List.mem_append.mp hb with hb | hb
        · exact h.1 b hb
        · rcases List.mem_singleton.mp hb with rfl
          omega
      · simp
    · simp only [hl, if_neg, not_false_iff]
      refine ⟨h.1, ?_⟩
      have := h.2
      simp only [List.length_append, List.length_singleton]
      omega

lemma mkBatches_length_le (ids : List String) :
    ∀ b ∈ mkBatches ids, b.length ≤ 50 := by
  intro b hb
  have hinv := foldl_addToBatch_invariant ids ([], [])
    (by constructor <;> simp)
  unfold mkBatches at hb
  by_cases he : (ids.foldl addToBatch ([], [])).2.isEmpty
  · simp only [he, if_pos] at hb
    exact hinv.1 b hb
  · simp only [he, if_neg, not_false_iff] at hb
    rcases List.mem_append.mp hb with hb | hb
    · exact hinv.1 b hb
    · rcases List.mem_singleton.mp hb with rfl
      exact hinv.2

lemma get_recommendations_recos_le (fetchPage : String → Page) (ma : String) (sk : Bool)
    (store : List (String × VideoRecord)) (v : String)
    (hs : storeRecosBounded store = true) :
    (get_recommendations fetchPage ma sk store v).recos.length ≤ 50 := by
  cases hv : lookupV store v with
  | some r =>
    have hm := lookupV_mem store v r hv
    have := List.all_eq_true.mp hs _ hm
    simpa [get_recommendations, hv] using this
  | none =>
    cases hc : checkUploadDates (fetchPage v).uploadDates ma sk "" with
    | none => simp [get_recommendations, hv, hc]
    | some pubdate =>
      cases hd : (fetchPage v).ytData with
      | none => simp [get_recommendations, hv, hc, hd]
      | some d =>
        simp only [get_recommendations, hv, hc, hd]
        exact le_trans (scrapeRecos_length_le d) (by omega)

/-- Claim C5: every comma-joined id batch handed to
`getVideosFromYouTubeAPI` contains at most 50 ids: the flush-at-50
accumulator of `make_video_to_chan_map` and `get_all_api_data` never exceeds
50 on any id stream, and `scrap_the_video`'s one-shot batch is a sub-list of
the recommendation list returned by `get_recommendations`, itself of length
at most 50 whenever every stored list is (fresh scrapes store at most 20). -/
theorem c5_batch_ceiling (ids : List String) (b : List String)
    (hb : b ∈ mkBatches ids) (fetchPage : String → Page) (ma : String) (sk : Bool)
    (store : List (String × VideoRecord)) (v : String) (api v2c : List String)
    (hs : storeRecosBounded store = true) :
    b.length ≤ 50
    ∧ (scrapVideoApiBatch
        (get_recommendations fetchPage ma sk store v).recos api v2c).length ≤ 50 :=
  ⟨mkBatches_length_le ids b hb,
   le_trans (List.length_filter_le _ _)
     (get_recommendations_recos_le fetchPage ma sk store v hs)⟩

theorem c5_batch_ceiling_witness :
    (["x"] : List String).length ≤ 50
    ∧ (scrapVideoApiBatch
        (get_recommendations (fun _ => goodPage) "2020-01-01" true [] "v").recos
        [] []).length ≤ 50 :=
  c5_batch_ceiling ["x"] ["x"] (by decide) (fun _ => goodPage) "2020-01-01" true
    [] "v" [] [] (by decide)

/-! ### Claim C9: `compute_recent_views` -/

/-- `invert_date`: `date[6:10] + '-' + date[3:5] + '-' + date[0:2]`
(dd-mm-yyyy to yyyy-mm-dd). -/
def invert_date (date : String) : String :=
  ⟨(date.data.drop 6).take 4 ++ '-' :: ((date.data.drop 3).take 2) ++ '-' :: date.data.take 2⟩

/-- Python `s[0:10]`. -/
def takeFirst10 (s : String) : String := ⟨s.data.take 10⟩

/-- Python `l[-n:]` (for `n = 0` this is the whole list). -/
def lastN {α : Type} (n : Nat) (l : List α) : List α :=
  if n = 0 then l else l.drop (l.length - n)

/-- Python `max(l)` on a non-empty list (the empty case never arises under
the claims' hypotheses). -/
def pyMax : List Int → Int
  | [] => 0
  | x :: xs => xs.foldl max x

/-- Python `min(x for x in l if x > 0)` (junk 0 when no reading is
positive; that case is guarded by the positive-maximum test). -/
def pyMinPos (l : List Int) : Int :=
  match l.filter (fun x => decide (0 < x)) with
  | [] => 0
  | x :: xs => xs.foldl min x

/-- One entry of `view_history` for video `v` at one date: the date's API
view count when the date's `api_videos` holds the video (−1 when its
`viewCount` is missing), else the date's scraped `views`, else −1 — the
nested `.get` defaults of line 1371. -/
def historyEntry (apiStore : List (String × Option Int))
    (scrStore : List (String × VideoRecord)) (v : String) : Int :=
  match lookupV apiStore v with
  | some vc => vc.getD (-1)
  | none =>
    match lookupV scrStore v with
    | some r => r.views
    | none => -1

/-- `compute_recent_views` restricted to one video `v` (lines 1366–1394).
`dates` is newest first in `dd-mm-yyyy`; `apiDate`/`scrDate` are the
per-date stores; `apiPub v` is `api_videos[v]['snippet'].get('publishedAt',
'')` when `v` is in the accumulated `api_videos`, `none` otherwise.  The
result is the entry recorded in `recent_views` for `v` (`none` when the code
records nothing).  The Python `if pub_date >= invert_date(dates[dayz])` is
written as the matching `if <` with swapped branches. -/
def recent_views_for (dates : List String) (dayz : Nat)
    (apiDate : String → List (String × Option Int))
    (scrDate : String → List (String × VideoRecord))
    (apiPub : String → Option String) (v : String) : Option Int :=
  let view_history := dates.reverse.map (fun d => historyEntry (apiDate d) (scrDate d) v)
  match apiPub v with
  | none => none
  | some p =>
    let pub_date := takeFirst10 p
    if pub_date = "" then none
    else if pyLt pub_date (invert_date (dates.getD dayz "")) then
      let maxi := pyMax (lastN dayz view_history)
      if maxi ≤ 0 then none
      else some (maxi - pyMinPos (lastN dayz view_history))
    else
      let tmp_views := pyMax (lastN dayz view_history)
      if 0 < tmp_views then some tmp_views else none

/-- The amended C9 statement, written from the claim's words with the
boundary the counterexample forces: readings are taken over the `dayz` most
recent dates (newest first), the maximum of the window via `List.max?`, the
minimum over the window's positive readings via `List.min?`; the max branch
applies exactly to videos published on or after the `(dayz+1)`-th most
recent scrape date, the max-minus-min branch to videos published strictly
before it. -/
def amended_recent_views (dates : List String) (dayz : Nat)
    (apiDate : String → List (String × Option Int))
    (scrDate : String → List (String × VideoRecord))
    (apiPub : String → Option String) (v : String) : Option Int :=
  let window := (dates.take dayz).map (fun d => historyEntry (apiDate d) (scrDate d) v)
  match apiPub v with
  | none => none
  | some p =>
    let pub_date := takeFirst10 p
    if pub_date = "" then none
    else if pyLt pub_date (invert_date (dates.getD dayz "")) then
      match window.max? with
      | none => none
      | some maxi =>
        if maxi ≤ 0 then none
        else
          match (window.filter (fun x => decide (0 < x))).min? with
          | none => none
          | some mini => some (maxi - mini)
    else
      match window.max? with
      | none => none
      | some m => if 0 < m then some m else none

/-- Scrape dates of the counterexample, newest first. -/
def c9_dates : List String := ["10-01-2020", "09-01-2020", "08-01-2020"]

/-- Per-date API stores: video `A` has 10, then 100, then 150 views. -/
def c9_apiDate (d : String) : List (String × Option Int) :=
  if d = "10-01-2020" then [("A", some 150)]
  else if d = "09-01-2020" then [("A", some 100)]
  else if d = "08-01-2020" then [("A", some 10)]
  else []

/-- No scraped-store fallbacks are needed in the counterexample. -/
def c9_scrDate (_ : String) : List (String × VideoRecord) := []

/-- Video `A` was published on 2020-01-08. -/
def c9_apiPub (w : String) : Option String :=
  if w = "A" then some "2020-01-08T00:00:00Z" else none

/-- Claim C9 counterexample: with a 2-day window (dates 2020-01-09 and
2020-01-10, readings 100 and 150), video `A` published 2020-01-08 — strictly
before the window — must get `max - min = 50` by the claim; the code
compares the publish date against the third-newest date 2020-01-08 with `>=`
and takes the max branch, recording 150. -/
theorem c9_counterexample :
    recent_views_for c9_dates 2 c9_apiDate c9_scrDate c9_apiPub "A" = some 150
    ∧ pyLt "2020-01-08" "2020-01-09" = true
    ∧ (150 : Int) ≠ 150 - 100 := by
  decide

lemma foldl_max_mem : ∀ (xs : List Int) (x : Int), xs.foldl max x ∈ x :: xs := by
  intro xs
  induction xs with
  | nil => intro x; simp
  | cons y ys ih =>
    intro x
    rw [List.foldl_cons]
    rcases List.mem_cons.mp (ih (max x y)) with h | h
    · rcases max_choice x y with hm | hm
      · rw [h, hm]; exact List.mem_cons_self _ _
      · rw [h, hm]; exact List.mem_cons_of_mem _ (List.mem_cons_self _ _)
    · exact List.mem_cons_of_mem _ (List.mem_cons_of_mem _ h)

lemma foldl_max_ge : ∀ (xs : List Int) (x a : Int), a ∈ x :: xs → a ≤ xs.foldl max x := by
  intro xs
  induction xs with
  | nil =>
    intro x a ha
    rcases List.mem_singleton.mp ha with rfl
    simp
  | cons y ys ih =>
    intro x a ha
    rw [List.foldl_cons]
    rcases List.mem_cons.mp ha with rfl | ha2
    · exact le_trans (le_max_left a y) (ih _ _ (List.mem_cons_self _ _))
    · rcases List.mem_cons.mp ha2 with rfl | ha3
      · exact le_trans (le_max_right x a) (ih _ _ (List.mem_cons_self _ _))
      · exact ih (max x y) a (List.mem_cons_of_mem _ ha3)

lemma foldl_min_mem : ∀ (xs : List Int) (x : Int), xs.foldl min x ∈ x :: xs := by
  intro xs
  induction xs with
  | nil => intro x; simp
  | cons y ys ih =>
    intro x
    rw [List.foldl_cons]
    rcases List.mem_cons.mp (ih (min x y)) with h | h
    · rcases min_choice x y with hm | hm
      · rw [h, hm]; exact List.mem_cons_self _ _
      · rw [h, hm]; exact List.mem_cons_of_mem _ (List.mem_cons_self _ _)
    · exact List.mem_cons_of_mem _ (List.mem_cons_of_mem _ h)

lemma foldl_min_le : ∀ (xs : List Int) (x a : Int), a ∈ x :: xs → xs.foldl min x ≤ a := by
  intro xs
  induction xs with
  | nil =>
    intro x a ha
    rcases List.mem_singleton.mp ha with rfl
    simp
  | cons y ys ih =>
    intro x a ha
    rw [List.foldl_cons]
    rcases List.mem_cons.mp ha with rfl | ha2
    · exact le_trans (ih _ _ (List.mem_cons_self _ _)) (min_le_left a y)
    · rcases List.mem_cons.mp ha2 with rfl | ha3
      · exact le_trans (ih _ _ (List.mem_cons_self _ _)) (min_le_right x a)
      · exact ih (min x y) a (List.mem_cons_of_mem _ ha3)

lemma pyMax_mem (l : List Int) (h : l ≠ []) : pyMax l ∈ l := by
  obtain ⟨x, xs, rfl⟩ := List.exists_cons_of_ne_nil h
  exact foldl_max_mem xs x

lemma le_pyMax (l : List Int) (a : Int) (ha : a ∈ l) : a ≤ pyMax l := by
  cases l with
  | nil => simp at ha
  | cons x xs => exact foldl_max_ge xs x a ha

lemma pyMax_eq_of_mem_iff (l l2 : List Int) (hne : l ≠ []) (hne2 : l2 ≠ [])
    (h : ∀ x : Int, x ∈ l ↔ x ∈ l2) : pyMax l = pyMax l2 :=
  le_antisymm (le_pyMax l2 _ ((h _).mp (pyMax_mem l hne)))
    (le_pyMax l _ ((h _).mpr (pyMax_mem l2 hne2)))

lemma pyMinPos_mem (l : List Int)
    (h : l.filter (fun x => decide (0 < x)) ≠ []) :
    pyMinPos l ∈ l.filter (fun x => decide (0 < x)) := by
  obtain ⟨z, zs, hzs⟩ := List.exists_cons_of_ne_nil h
  rw [pyMinPos, hzs]
  exact foldl_min_mem zs z

lemma pyMinPos_le (l : List Int) (a : Int)
    (ha : a ∈ l.filter (fun x => decide (0 < x))) : pyMinPos l ≤ a := by
  cases hzs : l.filter (fun x => decide (0 < x)) with
  | nil => rw [hzs] at ha; simp at ha
  | cons z zs =>
    rw [hzs] at ha
    rw [pyMinPos, hzs]
    exact foldl_min_le zs z a ha

lemma pyMinPos_eq_of_mem_iff (l l2 : List Int)
    (h : ∀ x : Int, x ∈ l ↔ x ∈ l2) : pyMinPos l = pyMinPos l2 := by
  have hf : ∀ x : Int, x ∈ l.filter (fun x => decide (0 < x))
      ↔ x ∈ l2.filter (fun x => decide (0 < x)) := by
    intro x
    simp [List.mem_filter, h x]
  by_cases hl : l.filter (fun x => decide (0 < x)) = []
  · have hl2 : l2.filter (fun x => decide (0 < x)) = [] := by
      cases hcase : l2.filter (fun x => decide (0 < x)) with
      | nil => rfl
      | cons z zs =>
        exfalso
        have : z ∈ l.filter (fun x => decide (0 < x)) :=
          (hf z).mpr (hcase ▸ List.mem_cons_self z zs)
        rw [hl] at this
        simp at this
    rw [pyMinPos, pyMinPos, hl, hl2]
  · have hl2 : l2.filter (fun x => decide (0 < x)) ≠ [] := by
      intro hcase
      obtain ⟨z, zs, hzs⟩ := List.exists_cons_of_ne_nil hl
      have : z ∈ l2.filter (fun x => decide (0 < x)) :=
        (hf z).mp (hzs ▸ List.mem_cons_self z zs)
      rw [hcase] at this
      simp at this
    exact le_antisymm (pyMinPos_le l _ ((hf _).mpr (pyMinPos_mem l2 hl2)))
      (pyMinPos_le l2 _ ((hf _).mp (pyMinPos_mem l hl)))

lemma pyMax_reverse (l : List Int) (h : l ≠ []) : pyMax l.reverse = pyMax l :=
  pyMax_eq_of_mem_iff l.reverse l (by simpa using h) h
    (fun _ => List.mem_reverse)

lemma pyMinPos_reverse (l : List Int) : pyMinPos l.reverse = pyMinPos l :=
  pyMinPos_eq_of_mem_iff l.reverse l (fun _ => List.mem_reverse)

lemma max?_cons_eq (y : Int) (ys : List Int) :
    (y :: ys).max? = some (pyMax (y :: ys)) := by
  simp [List.max?, pyMax]

lemma min?_filter_eq (W : List Int)
    (h : W.filter (fun x => decide (0 < x)) ≠ []) :
    (W.filter (fun x => decide (0 < x))).min? = some (pyMinPos W) := by
  obtain ⟨z, zs, hzs⟩ := List.exists_cons_of_ne_nil h
  rw [hzs, pyMinPos, hzs]
  simp [List.min?]

lemma max?_eq_some_pyMax (l : List Int) (h : l ≠ []) : l.max? = some (pyMax l) := by
  obtain ⟨y, ys, rfl⟩ := List.exists_cons_of_ne_nil h
  exact max?_cons_eq y ys

lemma maxBranch_eq (W : List Int) (hne : W ≠ []) :
    (match W.max? with
     | none => (none : Option Int)
     | some m => if 0 < m then some m else none)
    = (if 0 < pyMax W then some (pyMax W) else none) := by
  rw [max?_eq_some_pyMax _ hne]

lemma minBranch_eq (W : List Int) (hne : W ≠ []) :
    (match W.max? with
     | none => (none : Option Int)
     | some maxi =>
       if maxi ≤ 0 then none
       else
         match (W.filter (fun x => decide (0 < x))).min? with
         | none => none
         | some mini => some (maxi - mini))
    = (if pyMax W ≤ 0 then none else some (pyMax W - pyMinPos W)) := by
  rw [max?_eq_some_pyMax _ hne]
  by_cases hmax : pyMax W ≤ 0
  · show (if pyMax W ≤ 0 then (none : Option Int)
        else
          match (W.filter (fun x => decide (0 < x))).min? with
          | none => none
          | some mini => some (pyMax W - mini))
      = (if pyMax W ≤ 0 then none else some (pyMax W - pyMinPos W))
    rw [if_pos hmax, if_pos hmax]
  · have hfil : W.filter (fun x => decide (0 < x)) ≠ [] := by
      intro hnil
      have hmem : pyMax W ∈ W.filter (fun x => decide (0 < x)) := by
        rw [List.mem_filter]
        exact ⟨pyMax_mem _ hne, by simpa using not_le.mp hmax⟩
      rw [hnil] at hmem
      simp at hmem
    show (if pyMax W ≤ 0 then (none : Option Int)
        else
          match (W.filter (fun x => decide (0 < x))).min? with
          | none => none
          | some mini => some (pyMax W - mini))
      = (if pyMax W ≤ 0 then none else some (pyMax W - pyMinPos W))
    rw [if_neg hmax, if_neg hmax, min?_filter_eq _ hfil]

lemma lastN_reverse_map (dates : List String) (dayz : Nat) (f : String → Int)
    (h0 : dayz ≠ 0) :
    lastN dayz (dates.reverse.map f) = ((dates.take dayz).map f).reverse := by
  unfold lastN
  rw [if_neg h0, List.map_reverse, List.length_reverse, List.map_take,
    List.reverse_take]

/-- Claim C9 (amended): `compute_recent_views` computes, for every video in
the accumulated `api_videos` with a non-empty publish date, exactly the
amended statement — the max branch for videos published on or after the
`(dayz+1)`-th most recent scrape date (recorded only when positive), the
max-minus-min-over-positive-readings branch (skipped when the maximum is
non-positive) for videos published strictly before it, both over the window
of the `dayz` most recent dates. -/
theorem c9_recent_views (dates : List String) (dayz : Nat)
    (apiDate : String → List (String × Option Int))
    (scrDate : String → List (String × VideoRecord))
    (apiPub : String → Option String) (v : String)
    (h1 : 1 ≤ dayz) (h2 : dayz ≤ dates.length) :
    recent_views_for dates dayz apiDate scrDate apiPub v
      = amended_recent_views dates dayz apiDate scrDate apiPub v := by
  have h0 : dayz ≠ 0 := by omega
  have hWshape : lastN dayz (dates.reverse.map
        (fun d => historyEntry (apiDate d) (scrDate d) v))
      = ((dates.take dayz).map (fun d => historyEntry (apiDate d) (scrDate d) v)).reverse :=
    lastN_reverse_map dates dayz _ h0
  have hWne : (dates.take dayz).map (fun d => historyEntry (apiDate d) (scrDate d) v) ≠ [] := by
    intro hnil
    have hlen : ((dates.take dayz).map
        (fun d => historyEntry (apiDate d) (scrDate d) v)).length = 0 := by
      rw [hnil]; rfl
    rw [List.length_map, List.length_take] at hlen
    omega
  cases hpub : apiPub v with
  | none => simp [recent_views_for, amended_recent_views, hpub]
  | some p =>
    simp only [recent_views_for, amended_recent_views, hpub]
    by_cases hemp : takeFirst10 p = ""
    · rw [if_pos hemp, if_pos hemp]
    · rw [if_neg hemp, if_neg hemp, hWshape,
        pyMax_reverse _ hWne,
        pyMinPos_reverse]
      by_cases hlt : pyLt (takeFirst10 p) (invert_date (dates.getD dayz "")) = true
      · rw [if_pos hlt, if_pos hlt]
        exact (minBranch_eq _ hWne).symm
      · rw [if_neg hlt, if_neg hlt]
        exact (maxBranch_eq _ hWne).symm

theorem c9_recent_views_witness :
    recent_views_for c9_dates 2 c9_apiDate c9_scrDate c9_apiPub "A"
      = amended_recent_views c9_dates 2 c9_apiDate c9_scrDate c9_apiPub "A" :=
  c9_recent_views c9_dates 2 c9_apiDate c9_scrDate c9_apiPub "A" (by decide) (by decide)
